import Mathlib

/-!
Verification of the streaming response transcoder of an OpenAI-to-NIM HTTP
proxy (src/server.js). The streaming handler installed on the upstream
response (lines 193-257) is embedded shallowly: byte chunks and wire lines
are `List Char`, the JSON values flowing through `JSON.parse` /
`JSON.stringify` are an inductive `Json`, and the per-request mutable state
(the carry-over `buffer` and the `reasoningOpen` flag `reasoningStarted`) is
threaded explicitly. The compile-time constant `SHOW_REASONING` is a
parameter `showR` so both branches of the handler can be examined.

Modelling notes for platform builtins (not part of src/):
* `JSON.parse` is modelled by `parse` over the grammar actually exercised by
  the wire protocol; the number grammar is restricted to optionally signed
  integers without leading zeros, and string escapes cover the JSON named
  escapes (a `u` escape fails the parse). Duplicate object keys overwrite in
  place, as JavaScript object construction does.
* `JSON.stringify` is modelled by `stringify` (no spacing, insertion-order
  keys, JSON string escaping).
* JavaScript truthiness and string coercion of the optional delta fields are
  modelled by `truthy` and `jsStr`.
-/

set_option autoImplicit false
set_option maxRecDepth 8192

namespace NimProxy

abbrev Str := List Char

def lf : Char := Char.ofNat 10

/-! ## Frame Splitter

Embeds lines 197-199 of src/server.js:
`buffer += chunk.toString(); const lines = buffer.split('\n'); buffer = lines.pop() || '';`
`splitNL s` returns the complete (newline-terminated) lines of `s` together
with the trailing fragment after the last newline. -/

def splitNL : Str → List Str × Str
  | [] => ([], [])
  | c :: cs =>
    let r := splitNL cs
    if c = lf then ([] :: r.1, r.2)
    else
      match r.1 with
      | [] => ([], c :: r.2)
      | l :: ls => ((c :: l) :: ls, r.2)

theorem splitNL_nil : splitNL [] = ([], []) := rfl

theorem splitNL_no_lf {s : Str} (h : lf ∉ s) : splitNL s = ([], s) := by
  induction s with
  | nil => rfl
  | cons c cs ih =>
    have hc : c ≠ lf := fun hcc => h (hcc ▸ List.mem_cons_self c cs)
    have hcs : lf ∉ cs := fun hm => h (List.mem_cons_of_mem c hm)
    simp [splitNL, hc, ih hcs]

theorem lf_not_mem_splitNL_snd (s : Str) : lf ∉ (splitNL s).2 := by
  induction s with
  | nil => simp [splitNL]
  | cons c cs ih =>
    by_cases hc : c = lf
    · simpa [splitNL, hc] using ih
    · cases hr : (splitNL cs).1 with
      | nil =>
        simp only [splitNL, hc, if_false, hr]
        intro hmem
        rcases List.mem_cons.mp hmem with h1 | h2
        · exact hc h1.symm
        · exact ih h2
      | cons l ls => simpa [splitNL, hc, hr] using ih

/-- How `splitNL` acts on a concatenation: the trailing fragment of `a`
merges into the first line of `b`. -/
theorem splitNL_append (a b : Str) :
    splitNL (a ++ b) =
      (match (splitNL b).1 with
       | [] => ((splitNL a).1, (splitNL a).2 ++ (splitNL b).2)
       | l :: ls => ((splitNL a).1 ++ ((splitNL a).2 ++ l) :: ls, (splitNL b).2)) := by
  induction a with
  | nil =>
    cases hb : (splitNL b).1 with
    | nil =>
      simp only [List.nil_append, splitNL, hb]
      rw [← hb]
    | cons l ls =>
      simp only [List.nil_append, splitNL, hb]
      rw [← hb]
  | cons c cs ih =>
    by_cases hc : c = lf <;>
      cases hb : (splitNL b).1 <;>
        cases ha : (splitNL cs).1 <;>
          simp_all [splitNL, List.append_assoc]

/-- Feeding the splitter one chunk at a time: the frames emitted by all the
feeds, with `buf` the current carry-over buffer. -/
def feedFrames (buf : Str) : List Str → List Str
  | [] => []
  | c :: cs =>
    let p := splitNL (buf ++ c)
    p.1 ++ feedFrames p.2 cs

/-- The frames the splitter emits for a chunk sequence, starting from an
empty carry-over buffer (the state at stream start, line 193). -/
def framesOf (chunks : List Str) : List Str := feedFrames [] chunks

def joinStr (chunks : List Str) : Str := chunks.foldr (· ++ ·) []

theorem feedFrames_eq (buf : Str) (hbuf : lf ∉ buf) (cs : List Str) :
    feedFrames buf cs = (splitNL (buf ++ joinStr cs)).1 := by
  induction cs generalizing buf with
  | nil => simp [feedFrames, joinStr, splitNL_no_lf hbuf]
  | cons c cs ih =>
    have h2 : splitNL ((splitNL (buf ++ c)).2) = ([], (splitNL (buf ++ c)).2) :=
      splitNL_no_lf (lf_not_mem_splitNL_snd _)
    have key : (splitNL (buf ++ c ++ joinStr cs)).1 =
        (splitNL (buf ++ c)).1 ++ (splitNL ((splitNL (buf ++ c)).2 ++ joinStr cs)).1 := by
      rw [splitNL_append (buf ++ c) (joinStr cs),
        splitNL_append ((splitNL (buf ++ c)).2) (joinStr cs), h2]
      cases hj : (splitNL (joinStr cs)).1 <;> simp
    calc feedFrames buf (c :: cs)
        = (splitNL (buf ++ c)).1 ++ feedFrames (splitNL (buf ++ c)).2 cs := rfl
      _ = (splitNL (buf ++ c)).1 ++ (splitNL ((splitNL (buf ++ c)).2 ++ joinStr cs)).1 := by
          rw [ih _ (lf_not_mem_splitNL_snd _)]
      _ = (splitNL (buf ++ c ++ joinStr cs)).1 := key.symm
      _ = (splitNL (buf ++ joinStr (c :: cs))).1 := by
          simp [joinStr, List.append_assoc]

/-! ## JSON values

The values produced by `JSON.parse` and consumed by `JSON.stringify` in the
handler. Numbers are restricted to integers (see the header note). -/

inductive Json where
  | null
  | bool (b : Bool)
  | num (n : Int)
  | str (s : Str)
  | arr (elems : List Json)
  | obj (members : List (Str × Json))

def lbrace : Char := Char.ofNat 123

def rbrace : Char := Char.ofNat 125

def hexDig (n : Nat) : Char :=
  if n < 10 then Char.ofNat (48 + n) else Char.ofNat (87 + n)

/-- JSON string escaping as performed by `JSON.stringify`. -/
def escChar (c : Char) : Str :=
  if c = '\"' then ['\\', '\"']
  else if c = '\\' then ['\\', '\\']
  else if c = lf then ['\\', 'n']
  else if c = Char.ofNat 13 then ['\\', 'r']
  else if c = Char.ofNat 9 then ['\\', 't']
  else if c = Char.ofNat 8 then ['\\', 'b']
  else if c = Char.ofNat 12 then ['\\', 'f']
  else if c.toNat < 32 then ['\\', 'u', '0', '0', hexDig (c.toNat / 16), hexDig (c.toNat % 16)]
  else [c]

def escStr : Str → Str
  | [] => []
  | c :: cs => escChar c ++ escStr cs

def natStr (n : Nat) : Str := Nat.toDigits 10 n

def intStr (i : Int) : Str :=
  if i < 0 then '-' :: natStr i.natAbs else natStr i.natAbs

def quoteStr (s : Str) : Str := '\"' :: (escStr s ++ ['\"'])

/-! Model of `JSON.stringify` (no spacing, insertion-order object keys). -/

mutual

def stringify : Json → Str
  | .null => "null".data
  | .bool true => "true".data
  | .bool false => "false".data
  | .num n => intStr n
  | .str s => quoteStr s
  | .arr es => '[' :: (stringifyItems es ++ [']'])
  | .obj ms => lbrace :: (stringifyMembers ms ++ [rbrace])

def stringifyItems : List Json → Str
  | [] => []
  | [e] => stringify e
  | e :: es => stringify e ++ ',' :: stringifyItems es

def stringifyMembers : List (Str × Json) → Str
  | [] => []
  | [(k, v)] => quoteStr k ++ ':' :: stringify v
  | (k, v) :: ms => quoteStr k ++ ':' :: stringify v ++ ',' :: stringifyMembers ms

end

/-! JavaScript string coercion (used by `+` on the optional delta fields). -/

mutual

def jsStr : Json → Str
  | .null => "null".data
  | .bool true => "true".data
  | .bool false => "false".data
  | .num n => intStr n
  | .str s => s
  | .arr es => jsStrItems es
  | .obj _ => "[object Object]".data

def jsStrItems : List Json → Str
  | [] => []
  | [e] => jsStrElem e
  | e :: es => jsStrElem e ++ ',' :: jsStrItems es

def jsStrElem : Json → Str
  | .null => []
  | .bool true => "true".data
  | .bool false => "false".data
  | .num n => intStr n
  | .str s => s
  | .arr es => jsStrItems es
  | .obj _ => "[object Object]".data

end

/-- JavaScript truthiness of a JSON value. -/
def truthyJ : Json → Bool
  | .null => false
  | .bool b => b
  | .num n => decide (n ≠ 0)
  | .str s => !s.isEmpty
  | .arr _ => true
  | .obj _ => true

/-- Truthiness of an optional field, `none` standing for `undefined`. -/
def truthy : Option Json → Bool
  | none => false
  | some j => truthyJ j

/-- String coercion of an optional field (`undefined` coerces to the word). -/
def jsStrO : Option Json → Str
  | none => "undefined".data
  | some j => jsStr j

/-! ### JavaScript object operations -/

def lookupKey : List (Str × Json) → Str → Option Json
  | [], _ => none
  | (k, v) :: ms, key => if k = key then some v else lookupKey ms key

/-- Property assignment: update in place if present, else append. -/
def setKey : List (Str × Json) → Str → Json → List (Str × Json)
  | [], key, v => [(key, v)]
  | (k, w) :: ms, key, v =>
    if k = key then (k, v) :: ms else (k, w) :: setKey ms key v

/-- The `delete` operator. -/
def delKey : List (Str × Json) → Str → List (Str × Json)
  | [], _ => []
  | (k, w) :: ms, key => if k = key then ms else (k, w) :: delKey ms key

def updKey (f : Json → Json) : List (Str × Json) → Str → List (Str × Json)
  | [], _ => []
  | (k, w) :: ms, key =>
    if k = key then (k, f w) :: ms else (k, w) :: updKey f ms key

/-- Object construction from parsed members: a duplicate key overwrites the
earlier value in place, as in JavaScript. -/
def buildObj (ms : List (Str × Json)) : List (Str × Json) :=
  ms.foldl (fun acc kv => setKey acc kv.1 kv.2) []

/-! ### Model of `JSON.parse` -/

def isWs (c : Char) : Bool :=
  c = ' ' || c = Char.ofNat 9 || c = lf || c = Char.ofNat 13

def skipWs (s : Str) : Str := s.dropWhile isWs

def parseEsc (c : Char) : Option Char :=
  if c = '\"' then some '\"'
  else if c = '\\' then some '\\'
  else if c = '/' then some '/'
  else if c = 'n' then some lf
  else if c = 't' then some (Char.ofNat 9)
  else if c = 'r' then some (Char.ofNat 13)
  else if c = 'b' then some (Char.ofNat 8)
  else if c = 'f' then some (Char.ofNat 12)
  else none

/-- Body of a JSON string literal after the opening quote; returns the
decoded characters and the input after the closing quote. -/
def parseStrBody : Str → Option (Str × Str)
  | [] => none
  | '\"' :: rest => some ([], rest)
  | '\\' :: e :: rest => do
    let c ← parseEsc e
    let (s, r) ← parseStrBody rest
    pure (c :: s, r)
  | c :: rest =>
    if c.toNat < 32 then none
    else do
      let (s, r) ← parseStrBody rest
      pure (c :: s, r)

def digitsToNat (ds : Str) : Nat :=
  ds.foldl (fun a c => a * 10 + (c.toNat - 48)) 0

/-- Unsigned integer literal: digits without a leading zero, not followed by
a fraction or exponent (the modelled number grammar). -/
def parseNatNum (s : Str) : Option (Nat × Str) :=
  let ds := s.takeWhile Char.isDigit
  let r := s.dropWhile Char.isDigit
  if ds.isEmpty then none
  else if 1 < ds.length ∧ ds.head? = some '0' then none
  else
    match r with
    | c :: _ =>
      if c = '.' ∨ c = 'e' ∨ c = 'E' then none else some (digitsToNat ds, r)
    | [] => some (digitsToNat ds, r)

def parseNum (s : Str) : Option (Json × Str) :=
  match s with
  | '-' :: rest => do
    let (n, r) ← parseNatNum rest
    pure (Json.num (-(n : Int)), r)
  | _ => do
    let (n, r) ← parseNatNum s
    pure (Json.num (n : Int), r)

mutual

def parseVal : Nat → Str → Option (Json × Str)
  | 0, _ => none
  | Nat.succ fuel, s =>
    let s2 := skipWs s
    if List.isPrefixOf "null".data s2 then some (Json.null, s2.drop 4)
    else if List.isPrefixOf "true".data s2 then some (Json.bool true, s2.drop 4)
    else if List.isPrefixOf "false".data s2 then some (Json.bool false, s2.drop 5)
    else
      match s2 with
      | [] => none
      | c :: r =>
        if c = '\"' then (parseStrBody r).map (fun p => (Json.str p.1, p.2))
        else if c = '[' then
          match skipWs r with
          | ']' :: r2 => some (Json.arr [], r2)
          | _ => (parseItems fuel r).map (fun p => (Json.arr p.1, p.2))
        else if c = lbrace then
          match skipWs r with
          | [] => none
          | c2 :: r2 =>
            if c2 = rbrace then some (Json.obj [], r2)
            else (parseMembers fuel r).map (fun p => (Json.obj (buildObj p.1), p.2))
        else parseNum s2

def parseItems : Nat → Str → Option (List Json × Str)
  | 0, _ => none
  | Nat.succ fuel, s => do
    let (v, r) ← parseVal fuel s
    match skipWs r with
    | [] => none
    | c :: r2 =>
      if c = ',' then do
        let (es, r3) ← parseItems fuel r2
        pure (v :: es, r3)
      else if c = ']' then pure ([v], r2)
      else none

def parseMembers : Nat → Str → Option (List (Str × Json) × Str)
  | 0, _ => none
  | Nat.succ fuel, s =>
    match skipWs s with
    | '\"' :: r => do
      let (k, r2) ← parseStrBody r
      match skipWs r2 with
      | ':' :: r3 => do
        let (v, r4) ← parseVal fuel r3
        match skipWs r4 with
        | [] => none
        | c :: r5 =>
          if c = ',' then do
            let (ms, r6) ← parseMembers fuel r5
            pure ((k, v) :: ms, r6)
          else if c = rbrace then pure ([(k, v)], r5)
          else none
      | _ => none
    | _ => none

end

/-- Model of `JSON.parse`: parse a complete value with surrounding
whitespace; any other input raises `SyntaxError`, modelled as `none`. -/
def parse (s : Str) : Option Json :=
  match parseVal (2 * s.length + 2) s with
  | some (j, r) => if (skipWs r).isEmpty then some j else none
  | none => none

/-! ## The streaming handler (src/server.js lines 193-257) -/

def dataHdr : Str := "data: ".data

def doneStr : Str := "[DONE]".data

def thinkOpen : Str := ('<' :: 't' :: 'h' :: 'i' :: 'n' :: 'k' :: '>' :: [lf])

def thinkClose : Str := ('<' :: '/' :: 't' :: 'h' :: 'i' :: 'n' :: 'k' :: '>' :: [lf, lf])

/-- `String.prototype.includes`: substring containment. -/
def containsSub (pat : Str) : Str → Bool
  | [] => pat.isEmpty
  | s@(_ :: rest) => List.isPrefixOf pat s || containsSub pat rest

/-- Property access `v.key` on a non-null value: `undefined` (`none`) unless
`v` is an object carrying the key. -/
def getKeyJ (j : Json) (key : Str) : Option Json :=
  match j with
  | .obj ms => lookupKey ms key
  | _ => none

/-- Index access `v[0]`: first array element, character `0` of a string, or
member `"0"` of an object. -/
def index0 : Json → Option Json
  | .arr (x :: _) => some x
  | .str (c :: _) => some (Json.str [c])
  | .obj ms => lookupKey ms ("0".data)
  | _ => none

/-- The optional chain `data.choices?.[0]?.delta` (line 210). A `null` link
short-circuits to `undefined` exactly where the source has `?.`. -/
def deltaOf (j : Json) : Option Json :=
  match getKeyJ j "choices".data with
  | none => none
  | some Json.null => none
  | some c =>
    match index0 c with
    | none => none
    | some Json.null => none
    | some c0 => getKeyJ c0 "delta".data

/-- Lines 214-238: given the `reasoningStarted` flag and the two optional
delta fields, the new value to assign to `delta.content` (`none` when the
source performs no assignment) and the updated flag. In the
`SHOW_REASONING` branch the assignment also carries the marker text; in the
disabled branch the assignment is always `content || ''`. -/
def deltaStep (showR st : Bool) (r c : Option Json) : Option Json × Bool :=
  if showR then
    let p1 : Str × Bool :=
      if truthy r && !st then (thinkOpen ++ jsStrO r, true)
      else if truthy r then (jsStrO r, st)
      else ([], st)
    let p2 : Str × Bool :=
      if truthy c && p1.2 then (p1.1 ++ thinkClose ++ jsStrO c, false)
      else if truthy c then (p1.1 ++ jsStrO c, p1.2)
      else p1
    if p2.1.isEmpty then (none, p2.2) else (some (Json.str p2.1), p2.2)
  else
    (some (match c with
           | some v => if truthyJ v then v else Json.str []
           | none => Json.str []), st)

/-- The mutation `data.choices[0].delta.content = nc;
delete data.choices[0].delta.reasoning_content;` — a no-op on any step of
the path that is not an object/array (assignment to a primitive property is
silently ignored, and properties added to an array are invisible to
`JSON.stringify`). -/
def setDelta (j : Json) (nc : Json) : Json :=
  match j with
  | .obj ms =>
    Json.obj (updKey (fun cv =>
      let upd0 : (Json → Json) → Json → Json := fun f v =>
        match v with
        | .arr (x :: xs) => Json.arr (f x :: xs)
        | .obj m2 => Json.obj (updKey f m2 ("0".data))
        | w => w
      upd0 (fun c0 =>
        match c0 with
        | .obj m3 => Json.obj (updKey (fun d =>
            match d with
            | .obj dm => Json.obj (delKey (setKey dm "content".data nc)
                          "reasoning_content".data)
            | dv => dv) m3 "delta".data)
        | cv0 => cv0) cv) ms "choices".data)
  | _ => j

/-- One iteration of the `lines.forEach` body (lines 201-246): the bytes
written to the caller and the updated `reasoningStarted` flag. `none` from
`parse` is the thrown `SyntaxError`; a parsed `null` throws a `TypeError`
at `data.choices`; both land in the `catch`, which forwards the raw line. -/
def handleLine (showR st : Bool) (line : Str) : Str × Bool :=
  if List.isPrefixOf dataHdr line then
    if containsSub doneStr line then (line ++ [lf, lf], st)
    else
      match parse (line.drop 6) with
      | none => (line ++ [lf, lf], st)
      | some Json.null => (line ++ [lf, lf], st)
      | some j =>
        match deltaOf j with
        | some d =>
          if truthyJ d then
            let r := getKeyJ d "reasoning_content".data
            let c := getKeyJ d "content".data
            let m := deltaStep showR st r c
            let j2 := match m.1 with
                      | some nc => setDelta j nc
                      | none => j
            (dataHdr ++ stringify j2 ++ [lf, lf], m.2)
          else (dataHdr ++ stringify j ++ [lf, lf], st)
        | none => (dataHdr ++ stringify j ++ [lf, lf], st)
  else ([], st)

/-- `lines.forEach(...)`: fold `handleLine` over the complete lines of one
chunk, concatenating everything written. -/
def procLines (showR : Bool) : Bool → List Str → Str × Bool
  | st, [] => ([], st)
  | st, l :: ls =>
    let p := handleLine showR st l
    let q := procLines showR p.2 ls
    (p.1 ++ q.1, q.2)

/-- The per-request mutable state captured by the data handler closure:
the carry-over `buffer` (line 193) and `reasoningStarted` (line 194). -/
structure StreamState where
  buffer : Str
  reasoningStarted : Bool

/-- The `response.data.on('data')` handler for one chunk (lines 196-247). -/
def procChunk (showR : Bool) (s : StreamState) (chunk : Str) : Str × StreamState :=
  let p := splitNL (s.buffer ++ chunk)
  let q := procLines showR s.reasoningStarted p.1
  (q.1, ⟨p.2, q.2⟩)

def procChunks (showR : Bool) : StreamState → List Str → Str × StreamState
  | s, [] => ([], s)
  | s, c :: cs =>
    let p := procChunk showR s c
    let q := procChunks showR p.2 cs
    (p.1 ++ q.1, q.2)

/-- A whole stream: chunks processed from the initial state, then the
`end` handler (lines 249-252), which only calls `res.end()` and therefore
contributes no bytes — in particular the leftover buffer is dropped and no
synthetic terminator is written. -/
def runStream (showR : Bool) (chunks : List Str) : Str :=
  (procChunks showR ⟨[], false⟩ chunks).1

/-! ## Marker tokens

A structured view of the `SHOW_REASONING` branch: the emitted
`combinedContent` string decomposed into the open marker, the close marker
and plain text, so markers can be counted. `deltaStep_show_eq_toks` ties
this view to the source-faithful `deltaStep`. -/

inductive Tok where
  | openM
  | closeM
  | txt (s : Str)

def renderTok : Tok → Str
  | .openM => thinkOpen
  | .closeM => thinkClose
  | .txt s => s

def renderToks (ts : List Tok) : Str := ts.foldr (fun t acc => renderTok t ++ acc) []

def deltaToks (st : Bool) (r c : Option Json) : List Tok × Bool :=
  let p1 : List Tok × Bool :=
    if truthy r && !st then ([Tok.openM, Tok.txt (jsStrO r)], true)
    else if truthy r then ([Tok.txt (jsStrO r)], st)
    else ([], st)
  if truthy c && p1.2 then (p1.1 ++ [Tok.closeM, Tok.txt (jsStrO c)], false)
  else if truthy c then (p1.1 ++ [Tok.txt (jsStrO c)], p1.2)
  else p1

def runToks : Bool → List (Option Json × Option Json) → List Tok × Bool
  | st, [] => ([], st)
  | st, d :: ds =>
    let p := deltaToks st d.1 d.2
    let q := runToks p.2 ds
    (p.1 ++ q.1, q.2)

/-- The `SHOW_REASONING = true` merger over a delta sequence, in terms of the
source-faithful `deltaStep`: the concatenation of the emitted
`combinedContent` strings and the final `reasoningStarted` flag. -/
def mergeRun : Bool → List (Option Json × Option Json) → Str × Bool
  | st, [] => ([], st)
  | st, d :: ds =>
    let p := deltaStep true st d.1 d.2
    let q := mergeRun p.2 ds
    ((match p.1 with
      | some (Json.str s) => s
      | _ => []) ++ q.1, q.2)

theorem renderToks_append (a b : List Tok) :
    renderToks (a ++ b) = renderToks a ++ renderToks b := by
  induction a with
  | nil => rfl
  | cons t ts ih => simp [renderToks, List.foldr_cons, List.append_assoc] at ih ⊢; simp [ih]

theorem deltaStep_show_eq_toks (st : Bool) (r c : Option Json) :
    deltaStep true st r c =
      (if (renderToks (deltaToks st r c).1).isEmpty then none
       else some (Json.str (renderToks (deltaToks st r c).1)),
       (deltaToks st r c).2) := by
  cases st <;> by_cases h2 : truthy r <;> by_cases h3 : truthy c <;>
    simp [deltaStep, deltaToks, renderToks, renderTok, h2, h3,
      thinkOpen, thinkClose, List.append_assoc] <;>
    (try (split <;> rfl))

def countOpen (ts : List Tok) : Nat :=
  ts.countP (fun t => match t with | Tok.openM => true | _ => false)

def countClose (ts : List Tok) : Nat :=
  ts.countP (fun t => match t with | Tok.closeM => true | _ => false)

def stBit (st : Bool) : Nat := if st then 1 else 0

theorem deltaToks_count (st : Bool) (r c : Option Json) :
    countOpen (deltaToks st r c).1 + stBit st =
      countClose (deltaToks st r c).1 + stBit (deltaToks st r c).2 := by
  cases st <;> by_cases h2 : truthy r <;> by_cases h3 : truthy c <;>
    simp [deltaToks, countOpen, countClose, stBit, h2, h3,
      List.countP_append, List.countP_cons]

theorem deltaToks_take (st : Bool) (r c : Option Json) (n : Nat) :
    countClose ((deltaToks st r c).1.take n) ≤
      countOpen ((deltaToks st r c).1.take n) + stBit st := by
  cases st <;> by_cases h2 : truthy r <;> by_cases h3 : truthy c <;>
    simp only [deltaToks, h2, h3, Bool.true_and, Bool.false_and, Bool.and_true,
      Bool.and_false, Bool.not_false, Bool.not_true, if_true, if_false,
      Bool.and_self, List.nil_append, List.cons_append] <;>
      match n with
      | 0 => simp [countOpen, countClose]
      | 1 => simp [countOpen, countClose, stBit, List.countP_cons, List.take_succ_cons]
      | 2 => simp [countOpen, countClose, stBit, List.countP_cons, List.take_succ_cons]
      | 3 => simp [countOpen, countClose, stBit, List.countP_cons, List.take_succ_cons]
      | Nat.succ (Nat.succ (Nat.succ (Nat.succ m))) =>
        simp [countOpen, countClose, stBit, List.countP_cons, List.take_succ_cons]

theorem runToks_count (ds : List (Option Json × Option Json)) (st : Bool) :
    countOpen (runToks st ds).1 + stBit st =
      countClose (runToks st ds).1 + stBit (runToks st ds).2 := by
  induction ds generalizing st with
  | nil => simp [runToks, countOpen, countClose]
  | cons d ds ih =>
    have h1 := deltaToks_count st d.1 d.2
    have h2 := ih (deltaToks st d.1 d.2).2
    simp only [runToks, countOpen, countClose, List.countP_append] at h1 h2 ⊢
    omega

theorem runToks_take (ds : List (Option Json × Option Json)) (st : Bool) (n : Nat) :
    countClose ((runToks st ds).1.take n) ≤
      countOpen ((runToks st ds).1.take n) + stBit st := by
  induction ds generalizing st n with
  | nil => simp [runToks, countOpen, countClose]
  | cons d ds ih =>
    have hsplit : ((runToks st (d :: ds)).1.take n) =
        ((deltaToks st d.1 d.2).1.take n) ++
          ((runToks (deltaToks st d.1 d.2).2 ds).1.take
            (n - (deltaToks st d.1 d.2).1.length)) := by
      simp [runToks, List.take_append_eq_append_take]
    rw [hsplit]
    by_cases hn : n ≤ (deltaToks st d.1 d.2).1.length
    · have hz : n - (deltaToks st d.1 d.2).1.length = 0 := by omega
      rw [hz]
      simp only [List.take_zero, List.append_nil]
      exact deltaToks_take st d.1 d.2 n
    · have hfull : ((deltaToks st d.1 d.2).1.take n) = (deltaToks st d.1 d.2).1 := by
        apply List.take_of_length_le
        omega
      rw [hfull]
      have h2 := ih (deltaToks st d.1 d.2).2 (n - (deltaToks st d.1 d.2).1.length)
      have h3 := deltaToks_count st d.1 d.2
      simp only [countOpen, countClose, List.countP_append] at h2 h3 ⊢
      omega

/-- `runToks` renders to exactly the `combinedContent` strings that
`deltaStep` produces, and tracks the same `reasoningStarted` flag. -/
theorem runToks_render (ds : List (Option Json × Option Json)) (st : Bool) :
    renderToks (runToks st ds).1 = (mergeRun st ds).1 ∧
      (runToks st ds).2 = (mergeRun st ds).2 := by
  induction ds generalizing st with
  | nil => simp [runToks, mergeRun, renderToks]
  | cons d ds ih =>
    have hd := deltaStep_show_eq_toks st d.1 d.2
    have ihd := ih (deltaToks st d.1 d.2).2
    constructor
    · simp only [runToks, mergeRun, renderToks_append, hd]
      rw [ihd.1]
      by_cases he : (renderToks (deltaToks st d.1 d.2).1).isEmpty
      · simp [he, List.isEmpty_iff.mp he]
      · simp [he]
    · simp only [runToks, mergeRun, hd]
      exact ihd.2

/-! ## Stream composition lemmas -/

theorem joinStr_append (xs ys : List Str) :
    joinStr (xs ++ ys) = joinStr xs ++ joinStr ys := by
  induction xs with
  | nil => simp [joinStr]
  | cons x xs ih => simp [joinStr] at ih ⊢; simp [ih]

theorem splitNL_chain (a b : Str) :
    (splitNL (a ++ b)).1 = (splitNL a).1 ++ (splitNL ((splitNL a).2 ++ b)).1 := by
  rw [splitNL_append a b, splitNL_append ((splitNL a).2) b,
    splitNL_no_lf (lf_not_mem_splitNL_snd a)]
  cases hj : (splitNL b).1 <;> simp

theorem procLines_append (showR : Bool) (st : Bool) (xs ys : List Str) :
    procLines showR st (xs ++ ys) =
      ((procLines showR st xs).1 ++ (procLines showR (procLines showR st xs).2 ys).1,
       (procLines showR (procLines showR st xs).2 ys).2) := by
  induction xs generalizing st with
  | nil => simp [procLines]
  | cons x xs ih => simp [procLines, ih, List.append_assoc]

/-- The whole stream output is determined by the complete lines of the
concatenated input: everything the chunk loop writes equals `procLines`
over the lines split from the full byte sequence, with the leftover
carry-over contributing nothing. -/
theorem procChunks_out (showR : Bool) (cs : List Str) (buf : Str)
    (hbuf : lf ∉ buf) (st : Bool) :
    (procChunks showR ⟨buf, st⟩ cs).1 =
      (procLines showR st (splitNL (buf ++ joinStr cs)).1).1 := by
  induction cs generalizing buf st with
  | nil => simp [procChunks, joinStr, splitNL_no_lf hbuf, procLines]
  | cons c cs ih =>
    have hlines : (splitNL (buf ++ joinStr (c :: cs))).1 =
        (splitNL (buf ++ c)).1 ++ (splitNL ((splitNL (buf ++ c)).2 ++ joinStr cs)).1 := by
      have : buf ++ joinStr (c :: cs) = (buf ++ c) ++ joinStr cs := by
        simp [joinStr, List.append_assoc]
      rw [this, splitNL_chain]
    calc (procChunks showR ⟨buf, st⟩ (c :: cs)).1
        = (procLines showR st (splitNL (buf ++ c)).1).1 ++
            (procChunks showR ⟨(splitNL (buf ++ c)).2,
              (procLines showR st (splitNL (buf ++ c)).1).2⟩ cs).1 := rfl
      _ = (procLines showR st (splitNL (buf ++ c)).1).1 ++
            (procLines showR (procLines showR st (splitNL (buf ++ c)).1).2
              (splitNL ((splitNL (buf ++ c)).2 ++ joinStr cs)).1).1 := by
          rw [ih _ (lf_not_mem_splitNL_snd _)]
      _ = (procLines showR st (splitNL (buf ++ joinStr (c :: cs))).1).1 := by
          rw [hlines, procLines_append]

/-! ## Concrete wire data for the specified scenarios -/

/-- A one-choice delta object: `choices` is a one-element array whose
`delta` object carries the single member `field : val`. -/
def deltaJson (field val : Str) : Json :=
  Json.obj [("choices".data,
    Json.arr [Json.obj [("delta".data, Json.obj [(field, Json.str val)])]])]

def deltaLine (field val : Str) : Str := dataHdr ++ stringify (deltaJson field val)

def doneLine : Str := dataHdr ++ doneStr

/-- The scenario input of §8 of the spec, as a single raw chunk. -/
def scenarioChunk : Str :=
  deltaLine "reasoning_content".data "Let".data ++ [lf] ++
  deltaLine "reasoning_content".data " me think".data ++ [lf] ++
  deltaLine "content".data "42".data ++ [lf] ++
  doneLine ++ [lf]

/-- An output frame whose delta carries only `content : s`. -/
def contentFrame (s : Str) : Str :=
  dataHdr ++ stringify (deltaJson "content".data s) ++ [lf, lf]

/-- A role-announcement frame: a structurally valid delta with neither
`reasoning_content` nor `content`. -/
def roleJson : Json :=
  Json.obj [("choices".data,
    Json.arr [Json.obj [("delta".data,
      Json.obj [("role".data, Json.str "assistant".data)])]])]

def roleLine : Str := dataHdr ++ stringify roleJson

def roleJsonOut : Json :=
  Json.obj [("choices".data,
    Json.arr [Json.obj [("delta".data,
      Json.obj [("role".data, Json.str "assistant".data),
                ("content".data, Json.str [])])]])]

/-! ## Claims -/

/-- C1, counterexample: with reasoning display disabled, a delta carrying
only a reasoning fragment does NOT produce "no output frame at all" — the
handler still writes a frame whose delta content is the empty string
(line 236 assigns `content || ''` and line 240 writes unconditionally), so
the scenario run emits four frames, not just the `"42"` frame and the
sentinel. -/
theorem c1_counterexample :
    (handleLine false false (deltaLine "reasoning_content".data "Let".data)).1 =
      contentFrame [] ∧
    contentFrame [] ≠ [] ∧
    runStream false [scenarioChunk] ≠
      contentFrame "42".data ++ (doneLine ++ [lf, lf]) := by
  refine ⟨rfl, by decide, by decide⟩

/-- C1 (amended): with reasoning display disabled, the output contains zero
reasoning text and zero markers — the emitted content is always the input
content field (or the empty string), independent of the reasoning field,
and the state is unchanged — but a delta carrying only a reasoning fragment
still produces an output frame with empty content; the scenario yields two
empty-content frames, the `"42"` frame, then the terminal sentinel. -/
theorem c1_suppression_amended :
    (∀ (st : Bool) (r r2 c : Option Json),
        deltaStep false st r c = deltaStep false st r2 c) ∧
    (∀ (st : Bool) (r c : Option Json), (deltaStep false st r c).2 = st) ∧
    (∀ (st : Bool) (r c : Option Json) (nc : Json),
        (deltaStep false st r c).1 = some nc → nc = Json.str [] ∨ c = some nc) ∧
    runStream false [scenarioChunk] =
      contentFrame [] ++ contentFrame [] ++ contentFrame "42".data ++
        (doneLine ++ [lf, lf]) := by
  refine ⟨fun st r r2 c => rfl, fun st r c => rfl, ?_, by rfl⟩
  intro st r c nc h
  simp only [deltaStep, if_false, Bool.false_eq_true] at h
  cases c with
  | none => exact Or.inl (Option.some_injective _ h).symm
  | some v =>
    by_cases hv : truthyJ v
    · right
      simp [hv] at h
      rw [h]
    · left
      simp [hv] at h
      exact h.symm

/-- C1 witness: the emitted-content characterization applied to a concrete
content-only delta. -/
theorem c1_suppression_amended_witness :
    (deltaStep false false none (some (Json.str "x".data))).1 =
      some (Json.str "x".data) ∧
    (Json.str "x".data = Json.str [] ∨
      (some (Json.str "x".data) : Option Json) = some (Json.str "x".data)) :=
  ⟨rfl, c1_suppression_amended.2.2.1 false none (some (Json.str "x".data))
    (Json.str "x".data) rfl⟩

/-- C2: the Frame Splitter is invariant under re-chunking — any chunk
sequence yields the same frames as its concatenation delivered as one
chunk — and the sentinel split as `data: [DO` + `NE]\n` yields no frame
after the first chunk and exactly the complete sentinel line after the
second. -/
theorem c2_splitter_chunking :
    (∀ chunks : List Str, framesOf chunks = framesOf [joinStr chunks]) ∧
    framesOf ["data: [DO".data] = [] ∧
    framesOf ["data: [DO".data, "NE]\n".data] = ["data: [DONE]".data] := by
  refine ⟨?_, rfl, by decide⟩
  intro chunks
  rw [framesOf, framesOf, feedFrames_eq [] (by simp) chunks,
    feedFrames_eq [] (by simp) [joinStr chunks]]
  simp [joinStr]

/-- C3: with reasoning display enabled the merger follows the specified
transition table (Closed + reasoning emits the open marker then the text
and opens; Open + reasoning emits the text; Open + content emits the close
marker then the content and closes; Closed + content emits the content),
and the §8 scenario produces the frames `<think>\nLet`, ` me think`,
`</think>\n\n42`, then the sentinel. -/
theorem c3_merger_table :
    (∀ r : Str, r ≠ [] → deltaStep true false (some (Json.str r)) none =
        (some (Json.str (thinkOpen ++ r)), true)) ∧
    (∀ r : Str, r ≠ [] → deltaStep true true (some (Json.str r)) none =
        (some (Json.str r), true)) ∧
    (∀ c : Str, c ≠ [] → deltaStep true true none (some (Json.str c)) =
        (some (Json.str (thinkClose ++ c)), false)) ∧
    (∀ c : Str, c ≠ [] → deltaStep true false none (some (Json.str c)) =
        (some (Json.str c), false)) ∧
    runStream true [scenarioChunk] =
      contentFrame ("<think>\nLet".data) ++ contentFrame (" me think".data) ++
        contentFrame ("</think>\n\n42".data) ++ (doneLine ++ [lf, lf]) := by
  refine ⟨?_, ?_, ?_, ?_, by rfl⟩ <;>
    (intro s hs;
     simp [deltaStep, truthy, truthyJ, jsStrO, jsStr, hs, thinkOpen, thinkClose,
       List.isEmpty_iff])

/-- C3 witness: the first table row at the concrete fragment `Let`. -/
theorem c3_merger_table_witness :
    deltaStep true false (some (Json.str "Let".data)) none =
      (some (Json.str (thinkOpen ++ "Let".data)), true) :=
  c3_merger_table.1 "Let".data (by decide)

/-- C4: a single delta carrying both fragments emits, inside one output
event, the open marker (only when entering Open) followed by the reasoning
text, then the close marker followed by the content — in that order, ending
Closed. -/
theorem c4_same_frame_order :
    ∀ (st : Bool) (r c : Str), r ≠ [] → c ≠ [] →
      deltaStep true st (some (Json.str r)) (some (Json.str c)) =
        (some (Json.str ((if st then [] else thinkOpen) ++ r ++ thinkClose ++ c)),
         false) := by
  intro st r c hr hc
  cases st <;>
    simp [deltaStep, truthy, truthyJ, jsStrO, jsStr, hr, hc, thinkOpen,
      thinkClose, List.isEmpty_iff, List.append_assoc]

/-- C4 witness: both fragments present while Closed. -/
theorem c4_same_frame_order_witness :
    deltaStep true false (some (Json.str "a".data)) (some (Json.str "b".data)) =
      (some (Json.str ((if false then [] else thinkOpen) ++ "a".data ++
        thinkClose ++ "b".data)), false) :=
  c4_same_frame_order false "a".data "b".data (by decide) (by decide)

/-- C5, counterexample: the source tests `line.includes('[DONE]')`
(line 203), not payload equality — a well-formed delta whose reasoning text
is `[DONE]` is forwarded verbatim as a terminal (its payload is a valid
delta object distinct from the sentinel literal, yet it is not parsed and
not translated; in disabled mode the raw reasoning text therefore leaks to
the caller instead of being stripped). -/
theorem c5_counterexample :
    parse ((deltaLine "reasoning_content".data "[DONE]".data).drop 6) =
      some (deltaJson "reasoning_content".data "[DONE]".data) ∧
    stringify (deltaJson "reasoning_content".data "[DONE]".data) ≠ doneStr ∧
    handleLine false false (deltaLine "reasoning_content".data "[DONE]".data) =
      (deltaLine "reasoning_content".data "[DONE]".data ++ [lf, lf], false) ∧
    deltaLine "reasoning_content".data "[DONE]".data ++ [lf, lf] ≠
      contentFrame [] := by
  exact ⟨by rfl, by decide, by rfl, by decide⟩

/-- C5 (amended): a data-prefixed frame is treated as terminal — forwarded
verbatim with the state untouched and no structured parse attempted — iff
the whole line CONTAINS the sentinel substring `[DONE]` anywhere, not iff
its payload equals the sentinel literal. -/
theorem c5_terminal_amended :
    ∀ (showR st : Bool) (line : Str),
      List.isPrefixOf dataHdr line = true →
      containsSub doneStr line = true →
      handleLine showR st line = (line ++ [lf, lf], st) := by
  intro showR st line h1 h2
  simp [handleLine, h1, h2]

/-- C5 witness: the genuine sentinel line. -/
theorem c5_terminal_amended_witness :
    handleLine true false doneLine = (doneLine ++ [lf, lf], false) :=
  c5_terminal_amended true false doneLine (by decide) (by decide)

/-- C6: a data-prefixed frame whose payload fails the structured parse is
non-fatal — it is forwarded byte-identically (plus the frame separator),
the merger state is untouched, and the pipeline goes on to process the
remaining lines exactly as it would have without the malformed frame. -/
theorem c6_malformed_passthrough :
    ∀ (showR st : Bool) (line : Str) (rest : List Str),
      List.isPrefixOf dataHdr line = true →
      parse (line.drop 6) = none →
      procLines showR st (line :: rest) =
        ((line ++ [lf, lf]) ++ (procLines showR st rest).1,
         (procLines showR st rest).2) := by
  intro showR st line rest h1 h2
  by_cases h3 : containsSub doneStr line <;>
    simp [procLines, handleLine, h1, h2, h3]

/-- C6 witness: a garbled payload. -/
theorem c6_malformed_passthrough_witness :
    procLines false false ["data: oops".data] =
      (("data: oops".data ++ [lf, lf]) ++ (procLines false false []).1,
       (procLines false false []).2) :=
  c6_malformed_passthrough false false "data: oops".data [] (by decide) (by rfl)

/-- C7: with reasoning display enabled, over any delta sequence from the
initial Closed state the number of open markers equals the closes plus the
final flag bit — so opens never exceed closes by more than one — and in
every prefix of the emitted marker stream closes never exceed opens; the
token stream renders to exactly the `combinedContent` strings of the
source-faithful `deltaStep` run. -/
theorem c7_marker_invariant :
    ∀ ds : List (Option Json × Option Json),
      countOpen (runToks false ds).1 =
        countClose (runToks false ds).1 + stBit (runToks false ds).2 ∧
      countOpen (runToks false ds).1 ≤ countClose (runToks false ds).1 + 1 ∧
      (∀ n, countClose ((runToks false ds).1.take n) ≤
        countOpen ((runToks false ds).1.take n)) ∧
      renderToks (runToks false ds).1 = (mergeRun false ds).1 := by
  intro ds
  have h0 : stBit false = 0 := rfl
  have h1 := runToks_count ds false
  rw [h0] at h1
  have hb : stBit (runToks false ds).2 ≤ 1 := by
    cases hS : (runToks false ds).2 <;> simp [stBit, hS]
  refine ⟨by omega, by omega, fun n => ?_, (runToks_render ds false).1⟩
  have h3 := runToks_take ds false n
  rw [h0] at h3
  omega

/-- C8: at upstream end the leftover carry-over is discarded — appending a
trailing chunk holding no newline changes nothing in the output — and the
whole-stream output is exactly the output of the complete lines, so a
stream that never carried a Terminal delta is closed without any synthetic
terminator being appended. -/
theorem c8_end_discards_leftover :
    ∀ (showR : Bool) (chunks : List Str) (p : Str), lf ∉ p →
      runStream showR (chunks ++ [p]) = runStream showR chunks ∧
      runStream showR chunks =
        (procLines showR false (splitNL (joinStr chunks)).1).1 := by
  intro showR chunks p hp
  have h2 : ∀ cs : List Str,
      runStream showR cs = (procLines showR false (splitNL (joinStr cs)).1).1 := by
    intro cs
    have h := procChunks_out showR cs [] (by simp) false
    simpa [runStream] using h
  refine ⟨?_, h2 chunks⟩
  rw [h2, h2]
  have hj : joinStr (chunks ++ [p]) = joinStr chunks ++ p := by
    rw [joinStr_append]; simp [joinStr]
  have ha := splitNL_append (joinStr chunks) p
  rw [splitNL_no_lf hp] at ha
  simp only at ha
  rw [hj, ha]

/-- C8 witness: a complete frame followed by a dangling partial frame. -/
theorem c8_end_discards_leftover_witness :
    runStream false (["data: [DONE]\n".data] ++ ["data: [DO".data]) =
      runStream false ["data: [DONE]\n".data] :=
  (c8_end_discards_leftover false ["data: [DONE]\n".data] "data: [DO".data
    (by decide)).1

/-- C9, counterexample: the payload ` null` (note the extra space) parses
successfully as JSON, yet the handler does not emit its re-serialization:
`data.choices` on `null` throws, the `catch` forwards the original bytes,
and those differ from the canonical re-serialization `data: null`. -/
theorem c9_counterexample :
    parse (("data:  null".data).drop 6) = some Json.null ∧
    handleLine false false "data:  null".data =
      ("data:  null".data ++ [lf, lf], false) ∧
    "data:  null".data ++ [lf, lf] ≠ dataHdr ++ stringify Json.null ++ [lf, lf] := by
  exact ⟨by rfl, by rfl, by decide⟩

/-- C9 (amended): every data-prefixed, non-sentinel-bearing frame whose
payload parses to a NON-NULL JSON value is answered with exactly one frame
carrying the re-serialization of the (possibly modified) parsed value; in
particular a role-only delta is forwarded in disabled mode with
`reasoning_content` removed and `content` set to the empty string, not
suppressed and not passed through byte-identically. A payload spelling
`null` falls to the catch and is forwarded verbatim instead. -/
theorem c9_reencode_amended :
    (∀ (showR st : Bool) (line : Str) (j : Json),
        List.isPrefixOf dataHdr line = true →
        containsSub doneStr line = false →
        parse (line.drop 6) = some j →
        j ≠ Json.null →
        ∃ j2, (handleLine showR st line).1 = dataHdr ++ stringify j2 ++ [lf, lf]) ∧
    handleLine false false roleLine =
      (dataHdr ++ stringify roleJsonOut ++ [lf, lf], false) := by
  constructor
  · intro showR st line j h1 h2 h3 hj
    simp only [handleLine, h1, if_true, h2, Bool.false_eq_true, if_false, h3]
    cases j with
    | null => exact absurd rfl hj
    | bool b => exact ⟨_, rfl⟩
    | num n => exact ⟨_, rfl⟩
    | str s => exact ⟨_, rfl⟩
    | arr es => exact ⟨_, rfl⟩
    | obj ms =>
      rcases hd : deltaOf (Json.obj ms) with _ | d
      · simp only [hd]
        exact ⟨_, rfl⟩
      · simp only [hd]
        by_cases ht : truthyJ d
        · simp only [ht, if_true]
          exact ⟨_, rfl⟩
        · simp only [ht, Bool.false_eq_true, if_false]
          exact ⟨_, rfl⟩
  · rfl

/-- C9 witness: the universal part applied to the role-only line. -/
theorem c9_reencode_amended_witness :
    ∃ j2, (handleLine false false roleLine).1 =
      dataHdr ++ stringify j2 ++ [lf, lf] :=
  c9_reencode_amended.1 false false roleLine roleJson (by decide) (by decide)
    (by rfl) (fun h => Json.noConfusion h)

/-- C10: the merger treats empty-string fragments exactly as absent
fields — a delta step with `reasoning_content` (or `content`) equal to the
empty string coincides with the step where the field is missing — and in
particular, while Open, a delta whose content is the empty string keeps the
span Open and emits no close marker. -/
theorem c10_empty_fragments :
    (∀ (showR st : Bool) (c : Option Json),
        deltaStep showR st (some (Json.str [])) c = deltaStep showR st none c) ∧
    (∀ (showR st : Bool) (r : Option Json),
        deltaStep showR st r (some (Json.str [])) = deltaStep showR st r none) ∧
    (∀ r : Option Json, (deltaStep true true r (some (Json.str []))).2 = true) ∧
    (∀ r : Option Json, Tok.closeM ∉ (deltaToks true r (some (Json.str []))).1) := by
  have hc : truthy (some (Json.str [])) = false := rfl
  refine ⟨fun showR st c => rfl, fun showR st r => rfl, fun r => ?_, fun r => ?_⟩
  · by_cases hr : truthy r <;> simp [deltaStep, hr, hc, apply_ite Prod.snd]
  · by_cases hr : truthy r <;> simp [deltaToks, hr, hc]

end NimProxy
